import Mathlib

/-!
Verification of the Mandelbrot viewer (`main.go`).

The Go program's `complex128` arithmetic is embedded exactly over ℚ
(all inputs exercised by the claims are dyadic rationals, on which Go's
double-precision arithmetic is exact until far beyond the escape bound).
Go's escape test `cmplx.Abs(z) > 16` is embedded as `absSq z > 256`,
which is equivalent for exact arithmetic since both sides are nonnegative.
Machine `uint8` arithmetic of the colour channels is embedded as integer
arithmetic reduced modulo 256.
-/

namespace Mandelbrot

/-- A Go `complex128` value: a pair of its real and imaginary components. -/
@[ext]
structure GoComplex where
  re : ℚ
  im : ℚ
deriving DecidableEq

/-- Go complex multiplication `z * w` on `complex128`. -/
def cmul (a b : GoComplex) : GoComplex :=
  ⟨a.re * b.re - a.im * b.im, a.re * b.im + a.im * b.re⟩

/-- Go complex addition `z + w` on `complex128`. -/
def cadd (a b : GoComplex) : GoComplex :=
  ⟨a.re + b.re, a.im + b.im⟩

/-- Squared magnitude of a complex value; `cmplx.Abs z > 16` iff `absSq z > 256`. -/
def absSq (z : GoComplex) : ℚ :=
  z.re * z.re + z.im * z.im

/-- One loop body update of `processPixel`: `z = z*z + c` (main.go line 144). -/
def step (c z : GoComplex) : GoComplex := cadd (cmul z z) c

/-- The Mandelbrot orbit of `c`: `orbit c 0 = 0`, `orbit c (k+1) = (orbit c k)² + c`.
`orbit c (n+1)` is the value of `z` tested at loop counter `n` in `processPixel`. -/
def orbit (c : GoComplex) : ℕ → GoComplex
  | 0 => ⟨0, 0⟩
  | k + 1 => step c (orbit c k)

/-- A `color.RGBA` value; each channel is a `uint8`, held here as a `ℕ` in `0..255`. -/
structure RGBA where
  R : ℕ
  G : ℕ
  B : ℕ
  A : ℕ
deriving DecidableEq

/-- The constant `colourBlack = color.RGBA{0, 0, 0, 0}` (main.go line 26). -/
def colourBlack : RGBA := ⟨0, 0, 0, 0⟩

/-- The constant `colourContrast = 20` (main.go line 30). -/
def colourContrast : ℕ := 20

/-- Wrapping 8-bit reduction: the value of a Go `uint8` expression with
mathematical-integer value `x`. -/
def wrap8 (x : ℤ) : ℕ := (x % 256).toNat

/-- The colour returned by `processPixel` when the orbit escapes at loop counter
`n` (main.go lines 147-152): `R = 60 - 20*n`, `G = 180 - 20*n`, `B = 20*n`
in wrapping `uint8` arithmetic, `A = 255`. -/
def escapeColour (n : ℕ) : RGBA :=
  ⟨wrap8 (60 - colourContrast * n),
   wrap8 (180 - colourContrast * n),
   wrap8 (colourContrast * n),
   255⟩

/-- The loop of `processPixel` (main.go lines 143-154), with the remaining
iteration count `fuel` made explicit: while iterations remain, update
`z' = z*z + c`; if `|z'| > 16` (i.e. `absSq z' > 256`) return the escape colour
for the current loop counter `n`, otherwise continue with `z'` and `n+1`;
when the budget is exhausted return `colourBlack`. -/
def pixelLoop (c : GoComplex) : GoComplex → ℕ → ℕ → RGBA
  | _, _, 0 => colourBlack
  | z, n, fuel + 1 =>
    let z' := step c z
    if 256 < absSq z' then escapeColour n
    else pixelLoop c z' (n + 1) fuel

/-- The evaluator `processPixel` (main.go lines 140-156). The loop condition is
`n < uint8(iterations)` with `n : uint8`, so the budget that actually bounds
the loop is `iterations % 256`; the loop starts from `z = 0`. -/
def processPixel (iterations : ℕ) (c : GoComplex) : RGBA :=
  pixelLoop c ⟨0, 0⟩ 0 (iterations % 256)

/-- The number of times the body of the `processPixel` loop runs, starting
from state `z` with `fuel` iterations remaining. Instrumentation of
`pixelLoop`: it mirrors its control flow exactly. -/
def pixelLoopCount (c : GoComplex) : GoComplex → ℕ → ℕ
  | _, 0 => 0
  | z, fuel + 1 =>
    let z' := step c z
    if 256 < absSq z' then 1
    else pixelLoopCount c z' fuel + 1

/-- The number of loop-body executions performed by `processPixel iterations c`. -/
def processPixelCount (iterations : ℕ) (c : GoComplex) : ℕ :=
  pixelLoopCount c ⟨0, 0⟩ (iterations % 256)

/-- A `pixel.Rect`: an axis-aligned rectangle of the complex plane
(`mandelbrotBounds`) given by its min/max corner coordinates. -/
@[ext]
structure Rect where
  minX : ℚ
  minY : ℚ
  maxX : ℚ
  maxY : ℚ
deriving DecidableEq

/-- Model of `Rect.Size` of the pixel library: the width/height pair. -/
def Rect.size (r : Rect) : ℚ × ℚ := (r.maxX - r.minX, r.maxY - r.minY)

/-- Model of `Rect.Center` of the pixel library. -/
def Rect.center (r : Rect) : ℚ × ℚ := ((r.minX + r.maxX) / 2, (r.minY + r.maxY) / 2)

/-- Model of `Rect.Moved(delta)` of the pixel library: translate both corners by the
same vector. -/
def Rect.moved (r : Rect) (dx dy : ℚ) : Rect :=
  ⟨r.minX + dx, r.minY + dy, r.maxX + dx, r.maxY + dy⟩

/-- Model of `Rect.Resized(r.Center(), size)` of the pixel library with the centre as
anchor: the rectangle with the same centre and the given size. -/
def Rect.resizedCenter (r : Rect) (sx sy : ℚ) : Rect :=
  ⟨(r.minX + r.maxX) / 2 - sx / 2, (r.minY + r.maxY) / 2 - sy / 2,
   (r.minX + r.maxX) / 2 + sx / 2, (r.minY + r.maxY) / 2 + sy / 2⟩

/-- One zoom tick (main.go lines 87, 90):
`mandelbrotBounds.Resized(mandelbrotBounds.Center(), mandelbrotBounds.Size().Scaled(f))`
with `f = 0.997` (key R, zoom in) or `f = 1.003` (key F, zoom out). -/
def zoomStep (r : Rect) (f : ℚ) : Rect :=
  r.resizedCenter (f * (r.maxX - r.minX)) (f * (r.maxY - r.minY))

/-- The pan delta `scaleFactor = initialBoundsSize.ScaledXY(mandelbrotBounds.Size()).Scaled(0.001)`
(main.go line 80): the componentwise product of the initial viewport size and
the current viewport size, scaled by 0.001. -/
def scaleFactor (initialSize currentSize : ℚ × ℚ) : ℚ × ℚ :=
  (initialSize.1 * currentSize.1 * (1 / 1000), initialSize.2 * currentSize.2 * (1 / 1000))

/-- The four pan keys A / D / S / W (main.go lines 92-103). -/
inductive PanDir
  | left
  | right
  | down
  | up
deriving DecidableEq

/-- One pan tick (main.go lines 92-103): `mandelbrotBounds.Moved(delta)` where
the delta is `±scaleFactor.X` on the x axis or `±scaleFactor.Y` on the y axis. -/
def panStep (initialSize : ℚ × ℚ) (r : Rect) (d : PanDir) : Rect :=
  let sf := scaleFactor initialSize r.size
  match d with
  | .left => r.moved (-sf.1) 0
  | .right => r.moved sf.1 0
  | .down => r.moved 0 (-sf.2)
  | .up => r.moved 0 sf.2

/-- The pixel-to-complex-plane map of `generate` (main.go lines 122, 125):
`x = px/W*(maxX-minX) + minX`, `y = py/H*(maxY-minY) + minY`. -/
def pixelToComplex (b : Rect) (W H : ℕ) (px py : ℕ) : GoComplex :=
  ⟨(px : ℚ) / (W : ℚ) * (b.maxX - b.minX) + b.minX,
   (py : ℚ) / (H : ℚ) * (b.maxY - b.minY) + b.minY⟩

/-- The full grid built by one pass of `generate` (main.go lines 120-132):
row `py` (for `py < H`), column `px` (for `px < W`) holds
`processPixel` of the mapped coordinate of `(px, py)`. -/
def generate (b : Rect) (W H iterations : ℕ) : List (List RGBA) :=
  (List.range H).map fun py =>
    (List.range W).map fun px =>
      processPixel iterations (pixelToComplex b W H px py)

/-- Scaling of the complex plane by factor `f` about the point `c`:
the remap that one zoom tick applies to the per-pixel coordinates. -/
def scaleAbout (c : ℚ × ℚ) (f : ℚ) (z : GoComplex) : GoComplex :=
  ⟨c.1 + f * (z.re - c.1), c.2 + f * (z.im - c.2)⟩

/-- The per-row write loop of `generate` (main.go lines 124-131): for each
`px < W`, overwrite entry `px` of the row buffer with the computed colour of
pixel `(px, py)`. -/
def writeRow (b : Rect) (W H iterations py : ℕ) (row : List RGBA) : List RGBA :=
  (List.range W).foldl
    (fun acc px => acc.set px (processPixel iterations (pixelToComplex b W H px py)))
    row

/-- The generator's mutable state. The program allocates `pixelData` once
(`pixel.MakePictureData(windowBounds)`, main.go line 64) and every pass of
`generate` writes into that same buffer (`pixelData.Pix[i] = ...`, line 130);
`pix` is the current contents of that single shared buffer. Each pass then
publishes a sprite created from `pixelData` itself
(`pixel.NewSprite(pixelData, ...)`, line 134), so every published sprite
references the shared buffer; `published` records that a sprite exists. -/
structure GenState where
  pix : List (List RGBA)
  published : Bool
deriving DecidableEq

/-- One pass of `generate` (main.go lines 120-138): for each `py < H`,
overwrite row `py` of the shared buffer in place, writing every entry of the
row; then publish a new sprite over that same buffer. -/
def generatePass (W H iterations : ℕ) (b : Rect) (s : GenState) : GenState :=
  { pix :=
      (List.range H).foldl
        (fun acc py => acc.set py (writeRow b W H iterations py (acc.getD py [])))
        s.pix,
    published := true }

/-- The pixel contents observed through the most recently published sprite:
since every sprite references the one shared `pixelData` buffer, this is the
buffer's current contents. -/
def spriteContents (s : GenState) : List (List RGBA) := s.pix

/-- The orbit of `c` leaves magnitude 16 within the first `B` iterations:
some loop counter `n < B` has `absSq (orbit c (n+1)) > 256`. -/
def escapesWithin (c : GoComplex) (B : ℕ) : Prop :=
  ∃ n, n < B ∧ 256 < absSq (orbit c (n + 1))

/-! ### Basic orbit and loop lemmas -/

lemma orbit_zero_c (k : ℕ) : orbit ⟨0, 0⟩ k = ⟨0, 0⟩ := by
  induction k with
  | zero => rfl
  | succ k ih => simp [orbit, ih, step, cmul, cadd]

lemma orbit_one (c : GoComplex) : orbit c 1 = c := by
  ext <;> simp [orbit, step, cmul, cadd]

lemma step_orbit (c : GoComplex) (k : ℕ) : step c (orbit c k) = orbit c (k + 1) := rfl

lemma escapeColour_ne_black (n : ℕ) : escapeColour n ≠ colourBlack := by
  intro h
  have hA := congrArg RGBA.A h
  simp [escapeColour, colourBlack] at hA

lemma pixelLoop_eq_black (c : GoComplex) :
    ∀ fuel k n, (∀ j, j < fuel → absSq (orbit c (k + j + 1)) ≤ 256) →
      pixelLoop c (orbit c k) n fuel = colourBlack := by
  intro fuel
  induction fuel with
  | zero => intro k n _; rfl
  | succ fuel ih =>
    intro k n h
    have h0 : ¬ 256 < absSq (orbit c (k + 1)) := by
      have := h 0 (Nat.succ_pos _)
      simpa using not_lt.mpr this
    simp only [pixelLoop, step_orbit, h0, if_false]
    apply ih (k + 1) (n + 1)
    intro j hj
    have := h (j + 1) (by omega)
    have e : k + (j + 1) + 1 = k + 1 + j + 1 := by omega
    rwa [e] at this

lemma pixelLoop_escape (c : GoComplex) :
    ∀ fuel k n t, t < fuel → 256 < absSq (orbit c (k + t + 1)) →
      (∀ j, j < t → absSq (orbit c (k + j + 1)) ≤ 256) →
      pixelLoop c (orbit c k) n fuel = escapeColour (n + t) := by
  intro fuel
  induction fuel with
  | zero => intro k n t ht; omega
  | succ fuel ih =>
    intro k n t ht h256 hmin
    match t with
    | 0 =>
      have h0 : 256 < absSq (orbit c (k + 1)) := by simpa using h256
      simp only [pixelLoop, step_orbit, h0, if_true, Nat.add_zero]
    | t + 1 =>
      have h0 : ¬ 256 < absSq (orbit c (k + 1)) := by
        have := hmin 0 (Nat.succ_pos _)
        simpa using not_lt.mpr this
      simp only [pixelLoop, step_orbit, h0, if_false]
      have e256 : 256 < absSq (orbit c (k + 1 + t + 1)) := by
        have e : k + (t + 1) + 1 = k + 1 + t + 1 := by omega
        rwa [e] at h256
      have hmin' : ∀ j, j < t → absSq (orbit c (k + 1 + j + 1)) ≤ 256 := by
        intro j hj
        have := hmin (j + 1) (by omega)
        have e : k + (j + 1) + 1 = k + 1 + j + 1 := by omega
        rwa [e] at this
      have := ih (k + 1) (n + 1) t (by omega) e256 hmin'
      rwa [show n + 1 + t = n + (t + 1) by omega] at this

lemma pixelLoop_ne_black (c : GoComplex) :
    ∀ fuel k n, (∃ j, j < fuel ∧ 256 < absSq (orbit c (k + j + 1))) →
      pixelLoop c (orbit c k) n fuel ≠ colourBlack := by
  intro fuel
  induction fuel with
  | zero => intro k n ⟨j, hj, _⟩; omega
  | succ fuel ih =>
    intro k n ⟨j, hj, h256⟩
    by_cases h0 : 256 < absSq (orbit c (k + 1))
    · simp only [pixelLoop, step_orbit, h0, if_true]
      exact escapeColour_ne_black n
    · simp only [pixelLoop, step_orbit, h0, if_false]
      apply ih (k + 1) (n + 1)
      match j with
      | 0 => exact absurd (by simpa using h256) h0
      | j + 1 =>
        refine ⟨j, by omega, ?_⟩
        have e : k + (j + 1) + 1 = k + 1 + j + 1 := by omega
        rwa [e] at h256

lemma processPixel_eq_black (N : ℕ) (c : GoComplex)
    (h : ∀ j, j < N % 256 → absSq (orbit c (j + 1)) ≤ 256) :
    processPixel N c = colourBlack := by
  have := pixelLoop_eq_black c (N % 256) 0 0 (by intro j hj; simpa using h j hj)
  simpa [processPixel, orbit] using this

lemma processPixel_escapeAt (N t : ℕ) (c : GoComplex) (ht : t < N % 256)
    (h256 : 256 < absSq (orbit c (t + 1)))
    (hmin : ∀ j, j < t → absSq (orbit c (j + 1)) ≤ 256) :
    processPixel N c = escapeColour t := by
  have := pixelLoop_escape c (N % 256) 0 0 t ht (by simpa using h256)
    (by intro j hj; simpa using hmin j hj)
  simpa [processPixel, orbit] using this

lemma processPixel_ne_black (N : ℕ) (c : GoComplex)
    (h : ∃ j, j < N % 256 ∧ 256 < absSq (orbit c (j + 1))) :
    processPixel N c ≠ colourBlack := by
  obtain ⟨j, hj, h256⟩ := h
  have := pixelLoop_ne_black c (N % 256) 0 0 ⟨j, hj, by simpa using h256⟩
  simpa [processPixel, orbit] using this

lemma processPixel_origin (N : ℕ) : processPixel N ⟨0, 0⟩ = colourBlack := by
  apply processPixel_eq_black
  intro j _
  rw [orbit_zero_c]
  norm_num [absSq]

lemma pixelLoopCount_le (c : GoComplex) :
    ∀ fuel z, pixelLoopCount c z fuel ≤ fuel := by
  intro fuel
  induction fuel with
  | zero => intro z; exact le_refl 0
  | succ fuel ih =>
    intro z
    simp only [pixelLoopCount]
    split
    · omega
    · have := ih (step c z)
      omega

/-! ### List lemmas for the buffer-writing loops -/

lemma getD_append_right {α : Type} (l1 l2 : List α) (n : ℕ) (d : α)
    (h : l1.length ≤ n) :
    (l1 ++ l2).getD n d = l2.getD (n - l1.length) d := by
  simp [List.getD, List.getElem?_append_right h]

lemma foldl_set_range {α : Type} (d : α) (g : ℕ → α → α) (l : List α) :
    ∀ n, n ≤ l.length →
      (List.range n).foldl (fun acc i => acc.set i (g i (acc.getD i d))) l
        = ((List.range n).map fun i => g i (l.getD i d)) ++ l.drop n := by
  intro n
  induction n with
  | zero => intro _; simp
  | succ n ih =>
    intro hn
    have hnl : n < l.length := by omega
    rw [List.range_succ, List.foldl_append, List.foldl_cons, List.foldl_nil,
      ih (by omega)]
    have hmaplen : ((List.range n).map fun i => g i (l.getD i d)).length = n := by simp
    have hdrop : l.drop n = l[n] :: l.drop (n + 1) := List.drop_eq_getElem_cons hnl
    have hgetD :
        (((List.range n).map fun i => g i (l.getD i d)) ++ l.drop n).getD n d
          = l.getD n d := by
      rw [getD_append_right _ _ _ _ (le_of_eq hmaplen), hmaplen, Nat.sub_self, hdrop,
        List.getD_cons_zero, List.getD_eq_getElem l d hnl]
    rw [hgetD, List.set_append_right _ _ (le_of_eq hmaplen), hmaplen, Nat.sub_self,
      hdrop, List.set_cons_zero, List.map_append, List.append_assoc]
    rfl

lemma writeRow_eq (b : Rect) (W H its py : ℕ) (row : List RGBA)
    (hrow : row.length = W) :
    writeRow b W H its py row =
      (List.range W).map fun px => processPixel its (pixelToComplex b W H px py) := by
  have h := foldl_set_range colourBlack
    (fun px (_ : RGBA) => processPixel its (pixelToComplex b W H px py)) row W
    (le_of_eq hrow.symm)
  unfold writeRow
  rw [h, show row.drop W = [] from by rw [← hrow]; exact List.drop_length row,
    List.append_nil]

lemma generatePass_pix (W H its : ℕ) (b : Rect) (s : GenState)
    (hlen : s.pix.length = H) (hrows : ∀ row ∈ s.pix, row.length = W) :
    (generatePass W H its b s).pix = generate b W H its := by
  have h := foldl_set_range ([] : List RGBA)
    (fun py row => writeRow b W H its py row) s.pix H (le_of_eq hlen.symm)
  simp only [generatePass]
  rw [h, show s.pix.drop H = [] from by rw [← hlen]; exact List.drop_length s.pix,
    List.append_nil]
  unfold generate
  apply List.map_congr_left
  intro py hpy
  have hpy' : py < s.pix.length := by rw [hlen]; exact List.mem_range.mp hpy
  rw [List.getD_eq_getElem s.pix [] hpy']
  exact writeRow_eq b W H its py _ (hrows _ (List.getElem_mem hpy'))

lemma generate_length (b : Rect) (W H its : ℕ) : (generate b W H its).length = H := by
  simp [generate]

lemma generate_row_length (b : Rect) (W H its : ℕ) :
    ∀ row ∈ generate b W H its, row.length = W := by
  intro row hrow
  simp only [generate, List.mem_map] at hrow
  obtain ⟨py, _, rfl⟩ := hrow
  simp

lemma generate_entry (b : Rect) (W H its px py : ℕ) (hx : px < W) (hy : py < H) :
    ((generate b W H its).getD py []).getD px colourBlack =
      processPixel its (pixelToComplex b W H px py) := by
  have h1 : (generate b W H its).getD py []
      = (List.range W).map fun px => processPixel its (pixelToComplex b W H px py) := by
    unfold generate
    rw [List.getD_eq_getElem _ _ (by simpa using hy)]
    simp
  rw [h1, List.getD_eq_getElem _ _ (by simpa using hx)]
  simp

/-! ### Claims C1, C2, C6 -/

/-- C1 (amended): for every iteration budget `N` and complex input `c`, the
evaluator starts from `z = 0`, repeatedly computes `z ← z² + c`, and compares
the loop counter against `uint8(N) = N mod 256`: if `|z|` exceeds 16 at the
first loop counter `n < N mod 256`, it returns the colour with
`R = 60 − 20·n`, `G = 180 − 20·n`, `B = 20·n` in wrapping 8-bit arithmetic and
`A = 255`; if no such counter below `N mod 256` exists it returns the inside
colour `(0,0,0,0)`. -/
theorem C1_escape_time_evaluator (N : ℕ) (c : GoComplex) :
    ((∀ n, n < N % 256 → absSq (orbit c (n + 1)) ≤ 256) →
      processPixel N c = colourBlack) ∧
    (∀ n, n < N % 256 → 256 < absSq (orbit c (n + 1)) →
      (∀ j, j < n → absSq (orbit c (j + 1)) ≤ 256) →
      processPixel N c = escapeColour n) ∧
    (∀ n, escapeColour n =
      ⟨((60 - 20 * (n : ℤ)) % 256).toNat, ((180 - 20 * (n : ℤ)) % 256).toNat,
       ((20 * (n : ℤ)) % 256).toNat, 255⟩) := by
  refine ⟨processPixel_eq_black N c, ?_, ?_⟩
  · intro n hn h256 hmin
    exact processPixel_escapeAt N n c hn h256 hmin
  · intro n
    simp [escapeColour, wrap8, colourContrast]

/-- C1 witness: for budget 50 and `c = 3`, the orbit is `3, 12, 147`, first
exceeding magnitude 16 at loop counter 2, and the evaluator returns the
escape colour for `n = 2`. -/
theorem C1_escape_time_evaluator_witness :
    processPixel 50 ⟨3, 0⟩ = escapeColour 2 := by
  apply (C1_escape_time_evaluator 50 ⟨3, 0⟩).2.1 2 (by norm_num)
  · norm_num [orbit, step, cmul, cadd, absSq]
  · intro j hj
    interval_cases j <;> norm_num [orbit, step, cmul, cadd, absSq]

/-- C1 counterexample to the claim as stated: for `c = 17` (which exceeds
magnitude 16 already at loop counter `0 < 256 = N`) and budget `N = 256`,
the claim says the evaluator returns the escape colour for `n = 0`, but
`uint8(256) = 0`, so the loop body never runs and the evaluator returns the
inside colour. -/
theorem C1_escape_time_evaluator_counterexample :
    (0 < 256 ∧ 256 < absSq (orbit ⟨17, 0⟩ (0 + 1))) ∧
    processPixel 256 ⟨17, 0⟩ ≠ escapeColour 0 ∧
    processPixel 256 ⟨17, 0⟩ = colourBlack := by
  have hblack : processPixel 256 ⟨17, 0⟩ = colourBlack := rfl
  refine ⟨⟨by norm_num, by norm_num [orbit, step, cmul, cadd, absSq]⟩, ?_, hblack⟩
  rw [hblack]
  exact (escapeColour_ne_black 0).symm

/-- C2: for every value `v` of the `--iterations` flag and every input `c`,
the per-pixel escape loop body executes at most `v mod 256 ≤ v` times. -/
theorem C2_iteration_cap (v : ℕ) (c : GoComplex) :
    processPixelCount v c ≤ v % 256 ∧ processPixelCount v c ≤ v := by
  have h := pixelLoopCount_le c (v % 256) ⟨0, 0⟩
  exact ⟨h, le_trans h (Nat.mod_le v 256)⟩

/-- C6: for `c = 0` and every iteration budget `N`, the orbit stays at 0
forever, the evaluator never escapes, and it returns the inside colour
`(0,0,0,0)` regardless of the budget. -/
theorem C6_origin_never_escapes (N : ℕ) :
    processPixel N ⟨0, 0⟩ = colourBlack ∧
    (∀ k, orbit ⟨0, 0⟩ k = ⟨0, 0⟩) ∧
    ∀ B, ¬ escapesWithin ⟨0, 0⟩ B := by
  refine ⟨processPixel_origin N, orbit_zero_c, ?_⟩
  rintro B ⟨n, _, h256⟩
  rw [orbit_zero_c] at h256
  norm_num [absSq] at h256

/-! ### Claims C4, C5, C8, C9 -/

/-- C4: for every pixel `(px, py)` with `px < W` and `py < H`, the frame
generator produces a full `W × H` grid whose entry at `(px, py)` is the
evaluator's colour for the complex coordinate
`(px/W·(maxX − minX) + minX, py/H·(maxY − minY) + minY)` of the viewport —
the affine map from pixel space onto the viewport rectangle. -/
theorem C4_linear_pixel_mapping (b : Rect) (W H its px py : ℕ)
    (hx : px < W) (hy : py < H) :
    (generate b W H its).length = H ∧
    (∀ row ∈ generate b W H its, row.length = W) ∧
    ((generate b W H its).getD py []).getD px colourBlack =
      processPixel its (pixelToComplex b W H px py) ∧
    pixelToComplex b W H px py =
      ⟨(px : ℚ) / (W : ℚ) * (b.maxX - b.minX) + b.minX,
       (py : ℚ) / (H : ℚ) * (b.maxY - b.minY) + b.minY⟩ :=
  ⟨generate_length b W H its, generate_row_length b W H its,
   generate_entry b W H its px py hx hy, rfl⟩

/-- C4 witness at viewport `[-2,-2]×[2,2]`, resolution 2×2, budget 1,
pixel (1, 1). -/
theorem C4_linear_pixel_mapping_witness :
    (generate ⟨-2, -2, 2, 2⟩ 2 2 1).length = 2 ∧
    ((generate ⟨-2, -2, 2, 2⟩ 2 2 1).getD 1 []).getD 1 colourBlack =
      processPixel 1 (pixelToComplex ⟨-2, -2, 2, 2⟩ 2 2 1 1) :=
  ⟨(C4_linear_pixel_mapping ⟨-2, -2, 2, 2⟩ 2 2 1 1 1 (by norm_num) (by norm_num)).1,
   (C4_linear_pixel_mapping ⟨-2, -2, 2, 2⟩ 2 2 1 1 1 (by norm_num) (by norm_num)).2.2.1⟩

/-- C5: for every escaping input the n-dependent channels of the escape
colour are monotonic in the escape iteration count `n` while the 8-bit
values do not wrap: `B = 20·n` is increasing while `20·(n+1) ≤ 255`, and
`R = 60 − 20·n` and `G = 180 − 20·n` are decreasing while the expression
stays in `0..255` (i.e. while `20·(n+1) ≤ 60` resp. `≤ 180`); at every `n`
the channels are the wrapped values modulo 256. -/
theorem C5_channel_monotonicity :
    (∀ n, 20 * (n + 1) ≤ 255 → (escapeColour n).B < (escapeColour (n + 1)).B) ∧
    (∀ n, 20 * (n + 1) ≤ 60 → (escapeColour (n + 1)).R < (escapeColour n).R) ∧
    (∀ n, 20 * (n + 1) ≤ 180 → (escapeColour (n + 1)).G < (escapeColour n).G) ∧
    (∀ n : ℕ, (escapeColour n).R = ((60 - 20 * (n : ℤ)) % 256).toNat ∧
      (escapeColour n).G = ((180 - 20 * (n : ℤ)) % 256).toNat ∧
      (escapeColour n).B = ((20 * (n : ℤ)) % 256).toNat) := by
  refine ⟨?_, ?_, ?_, ?_⟩
  · intro n h
    simp only [escapeColour, wrap8, colourContrast, Nat.cast_ofNat, Nat.cast_add,
      Nat.cast_one]
    rw [Int.emod_eq_of_lt (by positivity) (by omega),
      Int.emod_eq_of_lt (by positivity) (by omega)]
    omega
  · intro n h
    simp only [escapeColour, wrap8, colourContrast, Nat.cast_ofNat, Nat.cast_add,
      Nat.cast_one]
    rw [Int.emod_eq_of_lt (by omega) (by omega), Int.emod_eq_of_lt (by omega) (by omega)]
    omega
  · intro n h
    simp only [escapeColour, wrap8, colourContrast, Nat.cast_ofNat, Nat.cast_add,
      Nat.cast_one]
    rw [Int.emod_eq_of_lt (by omega) (by omega), Int.emod_eq_of_lt (by omega) (by omega)]
    omega
  · intro n
    refine ⟨?_, ?_, ?_⟩ <;> simp [escapeColour, wrap8, colourContrast]

/-- C5 witness: the channel comparisons at `n = 0` (and at `n = 3` for the
blue channel, past the point where R has already left its range). -/
theorem C5_channel_monotonicity_witness :
    (escapeColour 0).B < (escapeColour 1).B ∧
    (escapeColour 1).R < (escapeColour 0).R ∧
    (escapeColour 1).G < (escapeColour 0).G ∧
    (escapeColour 3).B < (escapeColour 4).B :=
  ⟨C5_channel_monotonicity.1 0 (by norm_num),
   C5_channel_monotonicity.2.1 0 (by norm_num),
   C5_channel_monotonicity.2.2.1 0 (by norm_num),
   C5_channel_monotonicity.1 3 (by norm_num)⟩

/-- C8: one pan tick translates the viewport's min and max bounds by the same
delta along the panned axis (and leaves the other axis untouched), so the
width and height are unchanged; the delta is
`±(initialWidth · currentWidth · 0.001)` on the x axis and
`±(initialHeight · currentHeight · 0.001)` on the y axis, i.e. proportional
to the current viewport size. -/
theorem C8_pan_translation (init : ℚ × ℚ) (r : Rect) :
    (∀ d, (panStep init r d).size = r.size) ∧
    (∀ dx dy, (r.moved dx dy).minX - r.minX = dx ∧
      (r.moved dx dy).maxX - r.maxX = dx ∧
      (r.moved dx dy).minY - r.minY = dy ∧
      (r.moved dx dy).maxY - r.maxY = dy) ∧
    panStep init r .left = r.moved (-(init.1 * (r.maxX - r.minX) * (1 / 1000))) 0 ∧
    panStep init r .right = r.moved (init.1 * (r.maxX - r.minX) * (1 / 1000)) 0 ∧
    panStep init r .down = r.moved 0 (-(init.2 * (r.maxY - r.minY) * (1 / 1000))) ∧
    panStep init r .up = r.moved 0 (init.2 * (r.maxY - r.minY) * (1 / 1000)) := by
  refine ⟨?_, ?_, rfl, rfl, rfl, rfl⟩
  · intro d
    cases d <;>
      (simp only [panStep, scaleFactor, Rect.moved, Rect.size, Prod.mk.injEq]
       constructor <;> ring)
  · intro dx dy
    refine ⟨?_, ?_, ?_, ?_⟩ <;> simp [Rect.moved]

/-- C9: one zoom tick with factor `f` keeps the viewport's centre unchanged
and scales its width and height by `f`; consequently the per-pixel complex
coordinate of the next frame is the image of the prior frame's coordinate at
the same pixel under scaling by `f` about that centre, which is a bijection
of the plane for `f ≠ 0`. -/
theorem C9_zoom_about_center (r : Rect) (f : ℚ) :
    (zoomStep r f).center = r.center ∧
    (zoomStep r f).size = (f * r.size.1, f * r.size.2) ∧
    (∀ W H px py, pixelToComplex (zoomStep r f) W H px py =
      scaleAbout r.center f (pixelToComplex r W H px py)) ∧
    (f ≠ 0 → Function.Bijective (scaleAbout r.center f)) := by
  refine ⟨?_, ?_, ?_, ?_⟩
  · simp only [zoomStep, Rect.resizedCenter, Rect.center, Prod.mk.injEq]
    constructor <;> ring
  · simp only [zoomStep, Rect.resizedCenter, Rect.size, Prod.mk.injEq]
    constructor <;> ring
  · intro W H px py
    ext <;>
      simp only [pixelToComplex, zoomStep, Rect.resizedCenter, scaleAbout,
        Rect.center] <;>
      ring
  · intro hf
    rw [Function.bijective_iff_has_inverse]
    refine ⟨scaleAbout r.center f⁻¹, ?_, ?_⟩
    · intro z
      ext <;> (simp only [scaleAbout]; field_simp; try ring)
    · intro z
      ext <;> (simp only [scaleAbout]; field_simp; try ring)

/-- C9 witness: the zoom-in factor 0.997 at the initial viewport
`[-2,-2]×[2,2]` keeps the centre and is a bijective remap. -/
theorem C9_zoom_about_center_witness :
    (zoomStep ⟨-2, -2, 2, 2⟩ (997 / 1000)).center = Rect.center ⟨-2, -2, 2, 2⟩ ∧
    Function.Bijective (scaleAbout (Rect.center ⟨-2, -2, 2, 2⟩) (997 / 1000)) :=
  ⟨(C9_zoom_about_center ⟨-2, -2, 2, 2⟩ (997 / 1000)).1,
   (C9_zoom_about_center ⟨-2, -2, 2, 2⟩ (997 / 1000)).2.2.2 (by norm_num)⟩

/-! ### Claim C3 -/

/-- C3: with viewport `[-2,-2]×[2,2]`, resolution 4×4, and budget 50, each of
the four corner pixels maps to a coordinate that escapes within at most 5
iterations and receives an escape colour in the generated grid, while the
pixel `(2,2)` — whose mapped coordinate `(0,0)` is nearest the origin among
all 16 mapped coordinates — does not escape within 50 iterations and
receives the inside colour. -/
theorem C3_end_to_end_scenario :
    (escapesWithin (pixelToComplex ⟨-2, -2, 2, 2⟩ 4 4 0 0) 5 ∧
     escapesWithin (pixelToComplex ⟨-2, -2, 2, 2⟩ 4 4 3 0) 5 ∧
     escapesWithin (pixelToComplex ⟨-2, -2, 2, 2⟩ 4 4 0 3) 5 ∧
     escapesWithin (pixelToComplex ⟨-2, -2, 2, 2⟩ 4 4 3 3) 5) ∧
    (((generate ⟨-2, -2, 2, 2⟩ 4 4 50).getD 0 []).getD 0 colourBlack = escapeColour 2 ∧
     ((generate ⟨-2, -2, 2, 2⟩ 4 4 50).getD 0 []).getD 3 colourBlack = escapeColour 2 ∧
     ((generate ⟨-2, -2, 2, 2⟩ 4 4 50).getD 3 []).getD 0 colourBlack = escapeColour 3 ∧
     ((generate ⟨-2, -2, 2, 2⟩ 4 4 50).getD 3 []).getD 3 colourBlack = escapeColour 3) ∧
    (∀ px, px < 4 → ∀ py, py < 4 →
      absSq (pixelToComplex ⟨-2, -2, 2, 2⟩ 4 4 2 2) ≤
        absSq (pixelToComplex ⟨-2, -2, 2, 2⟩ 4 4 px py)) ∧
    (¬ escapesWithin (pixelToComplex ⟨-2, -2, 2, 2⟩ 4 4 2 2) 50 ∧
     ((generate ⟨-2, -2, 2, 2⟩ 4 4 50).getD 2 []).getD 2 colourBlack = colourBlack) := by
  have e00 : pixelToComplex ⟨-2, -2, 2, 2⟩ 4 4 0 0 = ⟨-2, -2⟩ := by
    ext <;> norm_num [pixelToComplex]
  have e30 : pixelToComplex ⟨-2, -2, 2, 2⟩ 4 4 3 0 = ⟨1, -2⟩ := by
    ext <;> norm_num [pixelToComplex]
  have e03 : pixelToComplex ⟨-2, -2, 2, 2⟩ 4 4 0 3 = ⟨-2, 1⟩ := by
    ext <;> norm_num [pixelToComplex]
  have e33 : pixelToComplex ⟨-2, -2, 2, 2⟩ 4 4 3 3 = ⟨1, 1⟩ := by
    ext <;> norm_num [pixelToComplex]
  have e22 : pixelToComplex ⟨-2, -2, 2, 2⟩ 4 4 2 2 = ⟨0, 0⟩ := by
    ext <;> norm_num [pixelToComplex]
  have p00 : processPixel 50 (⟨-2, -2⟩ : GoComplex) = escapeColour 2 := by
    apply processPixel_escapeAt 50 2 _ (by norm_num)
    · norm_num [orbit, step, cmul, cadd, absSq]
    · intro j hj
      interval_cases j <;> norm_num [orbit, step, cmul, cadd, absSq]
  have p30 : processPixel 50 (⟨1, -2⟩ : GoComplex) = escapeColour 2 := by
    apply processPixel_escapeAt 50 2 _ (by norm_num)
    · norm_num [orbit, step, cmul, cadd, absSq]
    · intro j hj
      interval_cases j <;> norm_num [orbit, step, cmul, cadd, absSq]
  have p03 : processPixel 50 (⟨-2, 1⟩ : GoComplex) = escapeColour 3 := by
    apply processPixel_escapeAt 50 3 _ (by norm_num)
    · norm_num [orbit, step, cmul, cadd, absSq]
    · intro j hj
      interval_cases j <;> norm_num [orbit, step, cmul, cadd, absSq]
  have p33 : processPixel 50 (⟨1, 1⟩ : GoComplex) = escapeColour 3 := by
    apply processPixel_escapeAt 50 3 _ (by norm_num)
    · norm_num [orbit, step, cmul, cadd, absSq]
    · intro j hj
      interval_cases j <;> norm_num [orbit, step, cmul, cadd, absSq]
  refine ⟨⟨?_, ?_, ?_, ?_⟩, ⟨?_, ?_, ?_, ?_⟩, ?_, ?_, ?_⟩
  · exact ⟨2, by norm_num, by rw [e00]; norm_num [orbit, step, cmul, cadd, absSq]⟩
  · exact ⟨2, by norm_num, by rw [e30]; norm_num [orbit, step, cmul, cadd, absSq]⟩
  · exact ⟨3, by norm_num, by rw [e03]; norm_num [orbit, step, cmul, cadd, absSq]⟩
  · exact ⟨3, by norm_num, by rw [e33]; norm_num [orbit, step, cmul, cadd, absSq]⟩
  · rw [generate_entry _ _ _ _ _ _ (by norm_num) (by norm_num), e00, p00]
  · rw [generate_entry _ _ _ _ _ _ (by norm_num) (by norm_num), e30, p30]
  · rw [generate_entry _ _ _ _ _ _ (by norm_num) (by norm_num), e03, p03]
  · rw [generate_entry _ _ _ _ _ _ (by norm_num) (by norm_num), e33, p33]
  · intro px hpx py hpy
    interval_cases px <;> interval_cases py <;> norm_num [pixelToComplex, absSq]
  · rw [e22]
    rintro ⟨n, _, h256⟩
    rw [orbit_zero_c] at h256
    norm_num [absSq] at h256
  · rw [generate_entry _ _ _ _ _ _ (by norm_num) (by norm_num), e22]
    exact processPixel_origin 50

/-! ### Claim C10 -/

/-- C10 (amended): on every generation pass every one of the `W × H` entries
of the pixel buffer is recomputed and written from the current viewport
(a full rebuild, with no incremental or partial update, and no dependence on
the previous contents); but the program keeps one shared buffer for the whole
process lifetime, and every published sprite references that same buffer, so
the pixel contents observed through a published sprite ARE overwritten by the
next generation pass. -/
theorem C10_full_rebuild_shared_buffer (W H its : ℕ) (b b2 : Rect) (s : GenState)
    (hlen : s.pix.length = H) (hrows : ∀ row ∈ s.pix, row.length = W) :
    (generatePass W H its b s).pix = generate b W H its ∧
    (generatePass W H its b s).published = true ∧
    (generate b W H its).length = H ∧
    (∀ row ∈ generate b W H its, row.length = W) ∧
    spriteContents (generatePass W H its b2 (generatePass W H its b s)) =
      generate b2 W H its := by
  have h1 := generatePass_pix W H its b s hlen hrows
  refine ⟨h1, rfl, generate_length b W H its, generate_row_length b W H its, ?_⟩
  show (generatePass W H its b2 (generatePass W H its b s)).pix = _
  apply generatePass_pix
  · rw [h1]; exact generate_length b W H its
  · rw [h1]; exact generate_row_length b W H its

/-- C10 witness: a 1×1 buffer, first rendered for a viewport whose sole pixel
maps to `c = 3` (an escaping point), then for one whose sole pixel maps to
`c = 0` (an inside point). -/
theorem C10_full_rebuild_shared_buffer_witness :
    (generatePass 1 1 50 ⟨3, 0, 4, 1⟩ ⟨[[colourBlack]], false⟩).pix =
      generate ⟨3, 0, 4, 1⟩ 1 1 50 ∧
    spriteContents
      (generatePass 1 1 50 ⟨0, 0, 1, 1⟩
        (generatePass 1 1 50 ⟨3, 0, 4, 1⟩ ⟨[[colourBlack]], false⟩)) =
      generate ⟨0, 0, 1, 1⟩ 1 1 50 :=
  ⟨(C10_full_rebuild_shared_buffer 1 1 50 ⟨3, 0, 4, 1⟩ ⟨0, 0, 1, 1⟩
      ⟨[[colourBlack]], false⟩ (by simp) (by simp)).1,
   (C10_full_rebuild_shared_buffer 1 1 50 ⟨3, 0, 4, 1⟩ ⟨0, 0, 1, 1⟩
      ⟨[[colourBlack]], false⟩ (by simp) (by simp)).2.2.2.2⟩

/-- C10 counterexample to the claim as stated: after the pass that renders
viewport `[3,0]×[4,1]` publishes its sprite, a further pass for viewport
`[0,0]×[1,1]` changes the pixel contents observed through that already
published sprite — the published frame is NOT immune to later passes,
because every pass writes into the single shared `pixelData` buffer. -/
theorem C10_published_frame_mutated_counterexample :
    spriteContents
      (generatePass 1 1 50 ⟨0, 0, 1, 1⟩
        (generatePass 1 1 50 ⟨3, 0, 4, 1⟩ ⟨[[colourBlack]], false⟩)) ≠
    spriteContents (generatePass 1 1 50 ⟨3, 0, 4, 1⟩ ⟨[[colourBlack]], false⟩) := by
  have hrows : ∀ row ∈ ([[colourBlack]] : List (List RGBA)), row.length = 1 := by simp
  have h1 : (generatePass 1 1 50 ⟨3, 0, 4, 1⟩ ⟨[[colourBlack]], false⟩).pix =
      generate ⟨3, 0, 4, 1⟩ 1 1 50 :=
    generatePass_pix 1 1 50 ⟨3, 0, 4, 1⟩ ⟨[[colourBlack]], false⟩ (by simp) hrows
  have h2 : (generatePass 1 1 50 ⟨0, 0, 1, 1⟩
      (generatePass 1 1 50 ⟨3, 0, 4, 1⟩ ⟨[[colourBlack]], false⟩)).pix =
      generate ⟨0, 0, 1, 1⟩ 1 1 50 := by
    apply generatePass_pix
    · rw [h1]; exact generate_length _ 1 1 50
    · rw [h1]; exact generate_row_length _ 1 1 50
  have hc1 : pixelToComplex ⟨3, 0, 4, 1⟩ 1 1 0 0 = ⟨3, 0⟩ := by
    ext <;> norm_num [pixelToComplex]
  have hp1 : processPixel 50 (⟨3, 0⟩ : GoComplex) = escapeColour 2 := by
    apply processPixel_escapeAt 50 2 _ (by norm_num)
    · norm_num [orbit, step, cmul, cadd, absSq]
    · intro j hj
      interval_cases j <;> norm_num [orbit, step, cmul, cadd, absSq]
  have hr1 : List.range 1 = [0] := rfl
  have g1 : generate ⟨3, 0, 4, 1⟩ 1 1 50 = [[escapeColour 2]] := by
    simp [generate, hr1, hc1, hp1]
  have hc2 : pixelToComplex ⟨0, 0, 1, 1⟩ 1 1 0 0 = ⟨0, 0⟩ := by
    ext <;> norm_num [pixelToComplex]
  have g2 : generate ⟨0, 0, 1, 1⟩ 1 1 50 = [[colourBlack]] := by
    simp [generate, hr1, hc2, processPixel_origin]
  show (generatePass 1 1 50 ⟨0, 0, 1, 1⟩
      (generatePass 1 1 50 ⟨3, 0, 4, 1⟩ ⟨[[colourBlack]], false⟩)).pix ≠
    (generatePass 1 1 50 ⟨3, 0, 4, 1⟩ ⟨[[colourBlack]], false⟩).pix
  rw [h1, h2, g1, g2]
  intro h
  simp only [List.cons.injEq] at h
  exact escapeColour_ne_black 2 h.1.1.symm

/-! ### Claim C7: divergence outside the disc of radius 2 -/

/-- Interpretation of the embedded complex values in `ℂ`, used only in
proofs. -/
def toC (z : GoComplex) : ℂ := ⟨(z.re : ℝ), (z.im : ℝ)⟩

lemma toC_cadd (a b : GoComplex) : toC (cadd a b) = toC a + toC b := by
  apply Complex.ext <;> simp [toC, cadd]

lemma toC_cmul (a b : GoComplex) : toC (cmul a b) = toC a * toC b := by
  apply Complex.ext <;> simp [toC, cmul]

lemma normSq_toC (z : GoComplex) : Complex.normSq (toC z) = (absSq z : ℝ) := by
  simp [Complex.normSq_apply, toC, absSq]

lemma toC_orbit (c : GoComplex) (k : ℕ) :
    toC (orbit c (k + 1)) = toC (orbit c k) * toC (orbit c k) + toC c := by
  show toC (step c (orbit c k)) = _
  rw [step, toC_cadd, toC_cmul]

lemma abs_lower_of_absSq (c : GoComplex) (h : 4 < absSq c) :
    2 < Complex.abs (toC c) := by
  have h2 : (4 : ℝ) < Complex.abs (toC c) ^ 2 := by
    rw [Complex.sq_abs, normSq_toC]
    exact_mod_cast h
  nlinarith [Complex.abs.nonneg (toC c)]

lemma orbit_abs_lower (c : GoComplex) (h : 2 < Complex.abs (toC c)) :
    ∀ k, 1 ≤ k →
      Complex.abs (toC c) * (Complex.abs (toC c) - 1) ^ (k - 1) ≤
        Complex.abs (toC (orbit c k)) := by
  intro k hk
  induction k, hk using Nat.le_induction with
  | base => simp [orbit_one]
  | succ k hk ih =>
    have ha0 : 0 < Complex.abs (toC c) := by linarith
    have hp1 : (1 : ℝ) ≤ (Complex.abs (toC c) - 1) ^ (k - 1) :=
      one_le_pow₀ (by linarith)
    have hax : Complex.abs (toC c) ≤ Complex.abs (toC (orbit c k)) := by
      calc Complex.abs (toC c)
          = Complex.abs (toC c) * 1 := (mul_one _).symm
        _ ≤ Complex.abs (toC c) * (Complex.abs (toC c) - 1) ^ (k - 1) := by
            exact mul_le_mul_of_nonneg_left hp1 (le_of_lt ha0)
        _ ≤ Complex.abs (toC (orbit c k)) := ih
    have htri : Complex.abs (toC (orbit c k)) * Complex.abs (toC (orbit c k)) -
        Complex.abs (toC c) ≤ Complex.abs (toC (orbit c (k + 1))) := by
      have h1 := Complex.abs.add_le
        (toC (orbit c k) * toC (orbit c k) + toC c) (-(toC c))
      simp only [add_neg_cancel_right, map_neg_eq_map] at h1
      rw [← toC_orbit, map_mul] at h1
      linarith
    have hmul : Complex.abs (toC c) * (Complex.abs (toC c) - 1) ^ (k - 1) *
        (Complex.abs (toC c) - 1) ≤
        Complex.abs (toC (orbit c k)) * (Complex.abs (toC (orbit c k)) - 1) := by
      apply mul_le_mul ih (by linarith) (by linarith)
      exact Complex.abs.nonneg _
    have hpow : (Complex.abs (toC c) - 1) ^ (k + 1 - 1) =
        (Complex.abs (toC c) - 1) ^ (k - 1) * (Complex.abs (toC c) - 1) := by
      rw [show k + 1 - 1 = (k - 1) + 1 by omega, pow_succ]
    rw [hpow]
    nlinarith [htri, hmul, hax]

lemma escape_index_exists (c : GoComplex) (h : 4 < absSq c) :
    ∃ B, 1 ≤ B ∧ 256 < absSq (orbit c B) := by
  have ha := abs_lower_of_absSq c h
  obtain ⟨m, hm⟩ : ∃ m : ℕ, (16 : ℝ) < (Complex.abs (toC c) - 1) ^ m :=
    pow_unbounded_of_one_lt 16 (by linarith)
  refine ⟨m + 1, by omega, ?_⟩
  have hlow := orbit_abs_lower c ha (m + 1) (by omega)
  rw [show m + 1 - 1 = m by omega] at hlow
  have h16 : (16 : ℝ) < Complex.abs (toC (orbit c (m + 1))) := by
    have : (16 : ℝ) < Complex.abs (toC c) * (Complex.abs (toC c) - 1) ^ m := by
      nlinarith [hm, ha]
    linarith
  have hsq : (256 : ℝ) < Complex.abs (toC (orbit c (m + 1))) ^ 2 := by
    nlinarith [h16]
  rw [Complex.sq_abs, normSq_toC] at hsq
  exact_mod_cast hsq

/-- C7 (amended): for every complex `c` with `|c| > 2` (i.e. `|c|² > 4`)
there is a bound `B ≥ 1`, independent of the budget, such that the orbit
escapes the threshold within `B` iterations, and for every iteration budget
`N` whose effective loop cap `N mod 256` (the `uint8` truncation of the
budget) is at least `B`, the evaluator returns an escape colour rather than
the inside colour. -/
theorem C7_escape_outside_disc (c : GoComplex) (h : 4 < absSq c) :
    ∃ B, 1 ≤ B ∧ escapesWithin c B ∧
      ∀ N, B ≤ N % 256 → processPixel N c ≠ colourBlack := by
  obtain ⟨B, hB1, hB256⟩ := escape_index_exists c h
  have hesc : 256 < absSq (orbit c (B - 1 + 1)) := by
    rw [show B - 1 + 1 = B by omega]
    exact hB256
  refine ⟨B, hB1, ⟨B - 1, by omega, hesc⟩, ?_⟩
  intro N hN
  exact processPixel_ne_black N c ⟨B - 1, by omega, hesc⟩

/-- C7 witness at `c = 3`, which satisfies `|c|² = 9 > 4`. -/
theorem C7_escape_outside_disc_witness :
    4 < absSq ⟨3, 0⟩ ∧
    ∃ B, 1 ≤ B ∧ escapesWithin ⟨3, 0⟩ B ∧
      ∀ N, B ≤ N % 256 → processPixel N ⟨3, 0⟩ ≠ colourBlack :=
  ⟨by norm_num [absSq], C7_escape_outside_disc ⟨3, 0⟩ (by norm_num [absSq])⟩

/-- C7 counterexample to the claim as stated: for `c = 3` (with `|c| > 2`)
there is NO bound `B` such that every budget `N ≥ B` yields an escape colour:
whatever `B` is, the budget `N = 256·(B+1) ≥ B` has `uint8(N) = 0`, the loop
body never runs, and the evaluator returns the inside colour. -/
theorem C7_escape_outside_disc_counterexample :
    4 < absSq ⟨3, 0⟩ ∧
    ¬ ∃ B, ∀ N, B ≤ N → processPixel N ⟨3, 0⟩ ≠ colourBlack := by
  refine ⟨by norm_num [absSq], ?_⟩
  rintro ⟨B, hB⟩
  have h1 : processPixel (256 * (B + 1)) ⟨3, 0⟩ = colourBlack := by
    apply processPixel_eq_black
    intro j hj
    exact absurd hj (by omega)
  exact hB (256 * (B + 1)) (by omega) h1

end Mandelbrot
